import Mathlib

/-!
Shallow embedding of the oaParkingMonitor detection-aggregation core.

`DetectionAggregator` (cloud/lib/assets/lambdas/system/system_detections_aggregator/
DetectionAggregator.class.js) folds raw parking detections into hour bins and rolls
hour bins up into day/week/month/year bins; the surrounding lambda handler
(system_detections_aggregator/index.js) orchestrates reads, the aggregation, the
per-granularity bin writes and the watermark update.

Modelling conventions:
* JS numbers that hold metric values are embedded as `Rat`; counts as `Nat`;
  epoch-millisecond timestamps as `Int`.
* Luxon IANA zones are abstracted as fixed UTC offsets in minutes (`Int`). No claim
  in this development depends on DST transitions, only on the existence of a
  zone-local truncation of timestamps to hour/day/week/month/year starts, which the
  fixed-offset model implements with exact Gregorian calendar arithmetic.
* A JS number field that may be `undefined` (never assigned) or non-finite
  (`Infinity`/`NaN`, the result of dividing by zero) is embedded as `JsNum`.
* `Date.now()` is modelled as an ambient clock value `now : Int` passed explicitly.
* The human-readable ISO duplicates `startTsH`/`endTsH`/`midTsH` are injective
  renderings of the retained `startTs`/`endTs`/`midTs` fields and are omitted.
-/

namespace ParkingMonitor

/-- A JS number that may be `undefined` (field never assigned), non-finite
(`Infinity` or `NaN`, produced by dividing a finite number by zero), or an
ordinary finite number. -/
inductive JsNum where
  | undef : JsNum
  | nonfinite : JsNum
  | num : Rat → JsNum
deriving DecidableEq, Repr

/-- JS division `a / b` of finite operands: non-finite exactly when `b = 0`. -/
def jsDiv (a b : Rat) : JsNum :=
  if b = 0 then JsNum.nonfinite else JsNum.num (a / b)

/-- JS division applied to possibly undefined/non-finite operands, as used for
`occupationRate = meanOccupiedSpaces / meanTotalSpaces`. At the single call site
both operands were just assigned from `jsDiv` with a positive divisor, so the
catch-all branch (JS would give `NaN`, or `0` for a non-finite divisor) is not
reached by the aggregator. -/
def jsNumDiv : JsNum → JsNum → JsNum
  | JsNum.num a, JsNum.num b => jsDiv a b
  | _, _ => JsNum.nonfinite

-- ---- zone-local calendar arithmetic (luxon `startOf`/`endOf` model) ----

def msPerHour : Int := 3600000

def msPerDay : Int := 86400000

/-- Zone-local milliseconds of an instant, for a fixed offset in minutes. -/
def localMs (tz ts : Int) : Int := ts + tz * 60000

/-- Back from zone-local milliseconds to the absolute instant. -/
def fromLocal (tz localT : Int) : Int := localT - tz * 60000

/-- Gregorian civil date `(y, m, d)` of a day count since 1970-01-01. -/
def civilFromDays (z : Int) : Int × Int × Int :=
  let z2 := z + 719468
  let era := z2.fdiv 146097
  let doe := z2 - era * 146097
  let yoe := (doe - doe.fdiv 1460 + doe.fdiv 36524 - doe.fdiv 146096).fdiv 365
  let y := yoe + era * 400
  let doy := doe - (365 * yoe + yoe.fdiv 4 - yoe.fdiv 100)
  let mp := (5 * doy + 2).fdiv 153
  let d := doy - (153 * mp + 2).fdiv 5 + 1
  let m := mp + (if mp < 10 then 3 else -9)
  (if m ≤ 2 then y + 1 else y, m, d)

/-- Day count since 1970-01-01 of a Gregorian civil date. -/
def daysFromCivil (y m d : Int) : Int :=
  let y2 := if m ≤ 2 then y - 1 else y
  let era := y2.fdiv 400
  let yoe := y2 - era * 400
  let mp := if m > 2 then m - 3 else m + 9
  let doy := (153 * mp + 2).fdiv 5 + d - 1
  let doe := yoe * 365 + yoe.fdiv 4 - yoe.fdiv 100 + doy
  era * 146097 + doe - 719468

/-- The five bin granularities (`BIN_ACCEPTED_VALUES`). -/
inductive BinSize where
  | hour
  | day
  | week
  | month
  | year
deriving DecidableEq, Repr

def BinSize.str : BinSize → String
  | .hour => "hour"
  | .day => "day"
  | .week => "week"
  | .month => "month"
  | .year => "year"

/-- `DateTime.fromMillis(ts, {zone}).startOf(size).toMillis()`: truncate an instant
to the start of its hour/day/week/month/year in the given zone. Weeks start on
Monday (luxon default); 1970-01-01 was a Thursday. -/
def binStart (size : BinSize) (tz ts : Int) : Int :=
  let lt := localMs tz ts
  match size with
  | .hour => fromLocal tz (lt - lt.emod msPerHour)
  | .day => fromLocal tz (lt - lt.emod msPerDay)
  | .week =>
      let days := lt.fdiv msPerDay
      fromLocal tz ((days - (days + 3).emod 7) * msPerDay)
  | .month =>
      let c := civilFromDays (lt.fdiv msPerDay)
      fromLocal tz (daysFromCivil c.1 c.2.1 1 * msPerDay)
  | .year =>
      let c := civilFromDays (lt.fdiv msPerDay)
      fromLocal tz (daysFromCivil c.1 1 1 * msPerDay)

/-- `endOf(size)`: the last millisecond of the enclosing bucket, i.e. the start of
the next bucket minus one. -/
def binEnd (size : BinSize) (tz ts : Int) : Int :=
  match size with
  | .hour => binStart .hour tz ts + msPerHour - 1
  | .day => binStart .day tz ts + msPerDay - 1
  | .week => binStart .week tz ts + 7 * msPerDay - 1
  | .month =>
      let c := civilFromDays ((localMs tz ts).fdiv msPerDay)
      let nxt := if c.2.1 = 12 then daysFromCivil (c.1 + 1) 1 1 else daysFromCivil c.1 (c.2.1 + 1) 1
      fromLocal tz (nxt * msPerDay) - 1
  | .year =>
      let c := civilFromDays ((localMs tz ts).fdiv msPerDay)
      fromLocal tz (daysFromCivil (c.1 + 1) 1 1 * msPerDay) - 1

/-- A raw parking detection (the shape documented on `aggregate`). -/
structure Detection where
  id : String
  ts : Int
  cameraId : String
  customerId : String
  siteId : String
  zoneId : String
  occupiedSpaces : Rat
  totalSpaces : Rat
  timezone : Int
deriving DecidableEq, Repr

/-- A time bin, as documented on `aggregate` and built by `_newBin`. Hour bins
carry `aggregatedIds = some _`; higher bins leave it `undefined` (`none`). -/
structure Bin where
  id : String
  binSize : BinSize
  cameraId : String
  customerId : String
  siteId : String
  zoneId : String
  timezone : Int
  startTs : Int
  endTs : Int
  midTs : Int
  aggregatedIds : Option (List String)
  aggregatedNumber : Nat
  sumOccupiedSpaces : Rat
  sumTotalSpaces : Rat
  minOccupiedSpaces : Option Rat
  maxOccupiedSpaces : Option Rat
  minTotalSpaces : Option Rat
  maxTotalSpaces : Option Rat
  meanOccupiedSpaces : JsNum
  meanTotalSpaces : JsNum
  occupationRate : JsNum
  createdAt : Int
  updatedAt : Int
deriving DecidableEq, Repr

/-- The four identity fields `_newBin` copies from its `source` (a detection or a
lower-level bin). -/
structure SrcIds where
  cameraId : String
  customerId : String
  siteId : String
  zoneId : String
deriving DecidableEq, Repr

def Detection.src (d : Detection) : SrcIds :=
  { cameraId := d.cameraId, customerId := d.customerId, siteId := d.siteId, zoneId := d.zoneId }

def Bin.src (b : Bin) : SrcIds :=
  { cameraId := b.cameraId, customerId := b.customerId, siteId := b.siteId, zoneId := b.zoneId }

/-- `_makeBinKey(binSize, cameraId, startTs)`. -/
def makeBinKey (size : BinSize) (cameraId : String) (startTs : Int) : String :=
  cameraId ++ "_" ++ size.str ++ "_" ++ toString startTs

/-- `_newBin(binSize, source, start, end, timezone, keepIds)` at clock value `now`.
`midTs` truncates the half-bucket offset to whole milliseconds. -/
def newBin (size : BinSize) (source : SrcIds) (start endT tz : Int) (keepIds : Bool)
    (now : Int) : Bin :=
  { id := makeBinKey size source.cameraId start
    binSize := size
    cameraId := source.cameraId
    customerId := source.customerId
    siteId := source.siteId
    zoneId := source.zoneId
    timezone := tz
    startTs := start
    endTs := endT
    midTs := start + (endT - start).fdiv 2
    aggregatedIds := if keepIds then some [] else none
    aggregatedNumber := 0
    sumOccupiedSpaces := 0
    sumTotalSpaces := 0
    minOccupiedSpaces := none
    maxOccupiedSpaces := none
    minTotalSpaces := none
    maxTotalSpaces := none
    meanOccupiedSpaces := JsNum.undef
    meanTotalSpaces := JsNum.undef
    occupationRate := JsNum.undef
    createdAt := now
    updatedAt := now }

/-- `_updateBinWithParkingDetection(bin, detection)`: fold one detection into a bin.
`null` min/max fields (`none`) are replaced by the detection's value, otherwise
combined with `Math.min`/`Math.max`; means and rate are recomputed from sums. -/
def updateBinWithParkingDetection (now : Int) (bin : Bin) (detection : Detection) : Bin :=
  let aggregatedNumber := bin.aggregatedNumber + 1
  let sumOccupiedSpaces := bin.sumOccupiedSpaces + detection.occupiedSpaces
  let sumTotalSpaces := bin.sumTotalSpaces + detection.totalSpaces
  let meanOccupiedSpaces := jsDiv sumOccupiedSpaces (aggregatedNumber : Rat)
  let meanTotalSpaces := jsDiv sumTotalSpaces (aggregatedNumber : Rat)
  { bin with
    aggregatedNumber
    sumOccupiedSpaces
    sumTotalSpaces
    minOccupiedSpaces := some (match bin.minOccupiedSpaces with
      | none => detection.occupiedSpaces
      | some m => min m detection.occupiedSpaces)
    maxOccupiedSpaces := some (match bin.maxOccupiedSpaces with
      | none => detection.occupiedSpaces
      | some m => max m detection.occupiedSpaces)
    minTotalSpaces := some (match bin.minTotalSpaces with
      | none => detection.totalSpaces
      | some m => min m detection.totalSpaces)
    maxTotalSpaces := some (match bin.maxTotalSpaces with
      | none => detection.totalSpaces
      | some m => max m detection.totalSpaces)
    aggregatedIds := match bin.aggregatedIds with
      | some l => some (l ++ [detection.id])
      | none => none
    meanOccupiedSpaces
    meanTotalSpaces
    occupationRate := jsNumDiv meanOccupiedSpaces meanTotalSpaces
    updatedAt := now }

/-- `_updateParkingBinWithBin(bin, childBin)`: merge a lower-level bin into an
upper-level bin; empty child bins (`aggregatedNumber === 0`) are skipped. When the
upper bin's min/max is `null` the child's value is taken verbatim; otherwise JS
`Math.min`/`Math.max` coerce a (structurally unreachable) `null` child value to 0. -/
def updateParkingBinWithBin (now : Int) (bin childBin : Bin) : Bin :=
  if childBin.aggregatedNumber = 0 then bin
  else
    let aggregatedNumber := bin.aggregatedNumber + childBin.aggregatedNumber
    let sumOccupiedSpaces := bin.sumOccupiedSpaces + childBin.sumOccupiedSpaces
    let sumTotalSpaces := bin.sumTotalSpaces + childBin.sumTotalSpaces
    let meanOccupiedSpaces := jsDiv sumOccupiedSpaces (aggregatedNumber : Rat)
    let meanTotalSpaces := jsDiv sumTotalSpaces (aggregatedNumber : Rat)
    { bin with
      aggregatedNumber
      sumOccupiedSpaces
      sumTotalSpaces
      minOccupiedSpaces := match bin.minOccupiedSpaces with
        | none => childBin.minOccupiedSpaces
        | some m => some (min m (childBin.minOccupiedSpaces.getD 0))
      maxOccupiedSpaces := match bin.maxOccupiedSpaces with
        | none => childBin.maxOccupiedSpaces
        | some m => some (max m (childBin.maxOccupiedSpaces.getD 0))
      minTotalSpaces := match bin.minTotalSpaces with
        | none => childBin.minTotalSpaces
        | some m => some (min m (childBin.minTotalSpaces.getD 0))
      maxTotalSpaces := match bin.maxTotalSpaces with
        | none => childBin.maxTotalSpaces
        | some m => some (max m (childBin.maxTotalSpaces.getD 0))
      meanOccupiedSpaces
      meanTotalSpaces
      occupationRate := jsNumDiv meanOccupiedSpaces meanTotalSpaces
      updatedAt := now }

-- ---- the in-memory bin index (`const bins = new Map()`) ----

/-- A JS `Map` with string keys, embedded as an insertion-ordered association
list: `set` replaces in place when the key exists and appends otherwise. -/
def mapGet {β : Type} (m : List (String × β)) (key : String) : Option β :=
  match m with
  | [] => none
  | (k, v) :: rest => if k = key then some v else mapGet rest key

/-- `map.set(key, value)`: replace in place, or append when the key is new. -/
def mapSet {β : Type} (m : List (String × β)) (key : String) (v : β) :
    List (String × β) :=
  match m with
  | [] => [(key, v)]
  | (k, w) :: rest => if k = key then (key, v) :: rest else (k, w) :: mapSet rest key v

abbrev BinIndex := List (String × Bin)

/-- Seed a bin index from existing bins: `bins.set(makeBinKey(size, bin.cameraId,
bin.startTs), bin)` for each bin in order. -/
def seedBins (size : BinSize) (existing : List Bin) : BinIndex :=
  existing.foldl (fun m b => mapSet m (makeBinKey size b.cameraId b.startTs) b) []

/-- `bin.aggregatedIds.includes(detection.id)` (false when the field is absent;
hour bins always carry it). -/
def hasAggregatedId (bin : Bin) (detId : String) : Bool :=
  match bin.aggregatedIds with
  | some l => l.contains detId
  | none => false

/-- Body of the detection loop of `_aggregateHourBins`: find or create the hour
bin for the detection's zone-local hour bucket, then fold the detection in unless
its ID was already aggregated into that bin. -/
def hourFoldStep (now : Int) (m : BinIndex) (detection : Detection) : BinIndex :=
  let start := binStart .hour detection.timezone detection.ts
  let endT := binEnd .hour detection.timezone detection.ts
  let key := makeBinKey .hour detection.cameraId start
  let bin := match mapGet m key with
    | some b => b
    | none => newBin .hour detection.src start endT detection.timezone true now
  let bin2 := if hasAggregatedId bin detection.id then bin
    else updateBinWithParkingDetection now bin detection
  mapSet m key bin2

/-- `_aggregateHourBins(detections, existingHourBins)`. -/
def aggregateHourBins (now : Int) (detections : List Detection)
    (existingHourBins : List Bin) : List Bin :=
  ((detections.foldl (hourFoldStep now) (seedBins .hour existingHourBins)).map Prod.snd)

/-- Body of the lower-bin loop of `_rollupBins`: find or create the upper bin for
the lower bin's bucket (created even when the lower bin is empty), then merge the
lower bin's aggregates into it (a no-op for an empty lower bin). -/
def rollupStep (now : Int) (size : BinSize) (m : BinIndex) (lowerBin : Bin) : BinIndex :=
  let start := binStart size lowerBin.timezone lowerBin.startTs
  let endT := binEnd size lowerBin.timezone lowerBin.startTs
  let key := makeBinKey size lowerBin.cameraId start
  let bin := match mapGet m key with
    | some b => b
    | none => newBin size lowerBin.src start endT lowerBin.timezone false now
  mapSet m key (updateParkingBinWithBin now bin lowerBin)

/-- `_rollupBins(lowerBins, binSize, existingUpperBins)`. -/
def rollupBins (now : Int) (lowerBins : List Bin) (size : BinSize)
    (existingUpperBins : List Bin) : List Bin :=
  ((lowerBins.foldl (rollupStep now size) (seedBins size existingUpperBins)).map Prod.snd)

/-- The `existingBins` argument and return value of `aggregate`: one bin array per
granularity. -/
structure Bins where
  hourBins : List Bin
  dayBins : List Bin
  weekBins : List Bin
  monthBins : List Bin
  yearBins : List Bin
deriving DecidableEq, Repr

/-- A missing/empty `existingBins` argument (each level defaults to `[]`). -/
def emptyBins : Bins := ⟨[], [], [], [], []⟩

/-- `aggregate(detections, existingBins)`: hour bins fold the detections; day and
week bins are rolled up from the hour bins, month bins from the day bins, and year
bins from the month bins. -/
def aggregate (now : Int) (detections : List Detection) (existingBins : Bins) : Bins :=
  let hourBins := aggregateHourBins now detections existingBins.hourBins
  let dayBins := rollupBins now hourBins .day existingBins.dayBins
  let weekBins := rollupBins now hourBins .week existingBins.weekBins
  let monthBins := rollupBins now dayBins .month existingBins.monthBins
  let yearBins := rollupBins now monthBins .year existingBins.yearBins
  ⟨hourBins, dayBins, weekBins, monthBins, yearBins⟩

/-- Select the bin array of one granularity from a `Bins` record. -/
def Bins.level (b : Bins) : BinSize → List Bin
  | .hour => b.hourBins
  | .day => b.dayBins
  | .week => b.weekBins
  | .month => b.monthBins
  | .year => b.yearBins

-- ---- detections with possibly missing fields (error-handling model) ----

/-- A detection as it may actually arrive from the store: `cameraId` and
`timezone` may be absent (`undefined`). -/
structure RawDetection where
  id : String
  ts : Int
  cameraId : Option String
  customerId : String
  siteId : String
  zoneId : String
  occupiedSpaces : Rat
  totalSpaces : Rat
  timezone : Option Int
deriving DecidableEq, Repr

/-- How `_aggregateHourBins` consumes a detection with missing fields: no branch
tests field presence, so JS semantics apply throughout — an `undefined` `cameraId`
is rendered as the string `"undefined"` inside the template-literal bin key and
stored as-is in the bin, and an `undefined` `zone` option makes luxon fall back to
the system default zone (`sysZone`). The detection is processed like any other. -/
def interpRaw (sysZone : Int) (r : RawDetection) : Detection :=
  { id := r.id
    ts := r.ts
    cameraId := r.cameraId.getD "undefined"
    customerId := r.customerId
    siteId := r.siteId
    zoneId := r.zoneId
    occupiedSpaces := r.occupiedSpaces
    totalSpaces := r.totalSpaces
    timezone := r.timezone.getD sysZone }

/-- `aggregate` applied to a batch that may contain detections with missing
fields, under system default zone `sysZone`. -/
def aggregateRaw (sysZone now : Int) (rawDetections : List RawDetection)
    (existingBins : Bins) : Bins :=
  aggregate now (rawDetections.map (interpRaw sysZone)) existingBins

-- ---- the lambda handler (system_detections_aggregator/index.js) ----

/-- `BIN_ACCEPTED_VALUES`, in source order. -/
def binLevels : List BinSize := [.hour, .day, .week, .month, .year]

/-- One store write performed by the handler: a per-granularity
`putItems(updatedBins[level], …)` batch, or the watermark upsert
`putItem({id: "last_detections_aggregation", value: now}, …)`. -/
inductive WriteOp where
  | putBins : BinSize → List Bin → WriteOp
  | putWatermark : Int → WriteOp
deriving DecidableEq, Repr

/-- The response body: `JSON.stringify` of an object literal (kept as its
key/value fields), or `undefined` (`JSON.stringify(e.body)` for a plain `Error`
thrown by a store helper, which has no `body`). -/
inductive RespBody where
  | fields : List (String × String) → RespBody
  | undef : RespBody
deriving DecidableEq, Repr

/-- The keys of a response body object (empty for `undefined`). -/
def RespBody.keys : RespBody → List String
  | RespBody.fields l => l.map Prod.fst
  | RespBody.undef => []

/-- What a handler invocation does, observably: HTTP status code, response body,
the store writes that were committed (in order), and the
`numberOfBinsUpdated` record logged on the success path (`total`, then one count
per granularity). -/
structure HandlerOutcome where
  statusCode : Nat
  body : RespBody
  writes : List WriteOp
  loggedBinCounts : Option (Nat × List (BinSize × Nat))
deriving DecidableEq, Repr

/-- Run a list of store writes in order; `ok i` tells whether the i-th write
succeeds. A failing write throws, so the writes before it stay committed and
no later write runs; the second component reports whether all writes succeeded. -/
def commitWrites (ok : Nat → Bool) : Nat → List WriteOp → List WriteOp × Bool
  | _, [] => ([], true)
  | i, w :: ws =>
      if ok i then
        let r := commitWrites ok (i + 1) ws
        (w :: r.1, r.2)
      else ([], false)

/-- The writes the handler attempts, in source order: for each granularity with a
non-empty updated bin array one `putItems` batch, then the watermark upsert. -/
def plannedWrites (updatedBins : Bins) (now : Int) : List WriteOp :=
  (binLevels.filterMap fun l =>
    if (updatedBins.level l).length > 0 then some (WriteOp.putBins l (updatedBins.level l))
    else none)
  ++ [WriteOp.putWatermark now]

/-- The `numberOfBinsUpdated` record as logged on the success path: each
granularity's count is that level's updated array length (left `0` when empty),
and `total` is their sum. -/
def numberOfBinsUpdated (updatedBins : Bins) : Nat × List (BinSize × Nat) :=
  ((binLevels.map fun l => (updatedBins.level l).length).sum,
    binLevels.map fun l => (l, (updatedBins.level l).length))

/-- The handler body (index.js lines 72–171) after the reads: `detections` holds
the raw detections with `ts ≥ last_detections_aggregation`, `existingBins` the
pre-fetched bins, `now` the run's own `Date.now()` start time; `readsOk` models
whether the reads preceding the aggregation threw, and `writeOk` which store
writes succeed. On an empty batch the handler returns without writing; otherwise
it aggregates, writes each non-empty level's bins, writes the watermark last, and
only then builds the success response; any throw is caught and reported with the
writes committed so far left in place. -/
def handler (now : Int) (detections : List Detection) (existingBins : Bins)
    (readsOk : Bool) (writeOk : Nat → Bool) : HandlerOutcome :=
  if readsOk = false then
    { statusCode := 500, body := RespBody.undef, writes := [], loggedBinCounts := none }
  else if detections.length = 0 then
    { statusCode := 200
      body := RespBody.fields [("status", "no new detections to aggregate")]
      writes := []
      loggedBinCounts := none }
  else
    let updatedBins := aggregate now detections existingBins
    let r := commitWrites writeOk 0 (plannedWrites updatedBins now)
    if r.2 then
      { statusCode := 200
        body := RespBody.fields
          [("status", "success"),
           ("message", "Aggregated " ++ toString detections.length ++ " new detections.")]
        writes := r.1
        loggedBinCounts := some (numberOfBinsUpdated updatedBins) }
    else
      { statusCode := 500, body := RespBody.undef, writes := r.1, loggedBinCounts := none }

-- ---- well-formedness of a bin's aggregate fields ----

/-- The aggregate fields of a bin are internally consistent: an empty bin has zero
sums and `null` min/max (as `_newBin` leaves them); a non-empty bin with count `n`
has its min/max set, `min * n ≤ sum ≤ max * n` for both metrics, and means equal
to `sum / n`. Every bin `_newBin` creates satisfies this, both fold operations
preserve it, and bins read back from the bin store are expected to satisfy it
(they were produced by the same code). -/
def BinWF (b : Bin) : Prop :=
  (b.aggregatedNumber = 0 →
    b.sumOccupiedSpaces = 0 ∧ b.sumTotalSpaces = 0 ∧
    b.minOccupiedSpaces = none ∧ b.maxOccupiedSpaces = none ∧
    b.minTotalSpaces = none ∧ b.maxTotalSpaces = none) ∧
  (b.aggregatedNumber ≠ 0 →
    ∃ mno mxo mnt mxt,
      b.minOccupiedSpaces = some mno ∧ b.maxOccupiedSpaces = some mxo ∧
      b.minTotalSpaces = some mnt ∧ b.maxTotalSpaces = some mxt ∧
      mno * (b.aggregatedNumber : Rat) ≤ b.sumOccupiedSpaces ∧
      b.sumOccupiedSpaces ≤ mxo * (b.aggregatedNumber : Rat) ∧
      mnt * (b.aggregatedNumber : Rat) ≤ b.sumTotalSpaces ∧
      b.sumTotalSpaces ≤ mxt * (b.aggregatedNumber : Rat) ∧
      b.meanOccupiedSpaces = jsDiv b.sumOccupiedSpaces (b.aggregatedNumber : Rat) ∧
      b.meanTotalSpaces = jsDiv b.sumTotalSpaces (b.aggregatedNumber : Rat))

/-- The min ≤ mean ≤ max sandwich stated by the spec, for a non-empty bin, for
both the occupied-spaces and the total-spaces metrics. -/
def MeanBounded (b : Bin) : Prop :=
  b.aggregatedNumber ≠ 0 →
  ∃ qo qt mno mxo mnt mxt,
    b.meanOccupiedSpaces = JsNum.num qo ∧ b.meanTotalSpaces = JsNum.num qt ∧
    b.minOccupiedSpaces = some mno ∧ b.maxOccupiedSpaces = some mxo ∧
    b.minTotalSpaces = some mnt ∧ b.maxTotalSpaces = some mxt ∧
    mno ≤ qo ∧ qo ≤ mxo ∧ mnt ≤ qt ∧ qt ≤ mxt

/-- A bin whose divisions by `aggregatedNumber` were performed with a non-zero
divisor: its count is positive and both stored means are finite numbers (the
`jsDiv` at their assignment did not take the division-by-zero branch). -/
def MeansNum (b : Bin) : Prop :=
  b.aggregatedNumber ≠ 0 ∧
  (∃ q, b.meanOccupiedSpaces = JsNum.num q) ∧ (∃ q, b.meanTotalSpaces = JsNum.num q)

-- ---- concrete example inputs used by the claim instances ----

def exDetection : Detection :=
  ⟨"id1", 0, "cam", "cu", "si", "zo", 2, 12, 0⟩

/-- The output of a first aggregation run over the single-detection batch. -/
def exBins1 : Bins := aggregate 0 [exDetection] emptyBins

/-- Two detections sharing one ID and camera whose timestamps fall two hours
apart, hence in different hour buckets. -/
def exDup1 : Detection := ⟨"dup", 0, "cam", "cu", "si", "zo", 1, 10, 0⟩

def exDup2 : Detection := ⟨"dup", 7200000, "cam", "cu", "si", "zo", 3, 10, 0⟩

/-- A non-empty month bin (one detection folded in), used as a pre-existing month
bin with no corresponding day bins. -/
def exMonthBin : Bin :=
  updateBinWithParkingDetection 0 (newBin .month exDetection.src 0 2678399999 0 false 0)
    exDetection

def exMonthOnly : Bins := ⟨[], [], [], [exMonthBin], []⟩

/-- An hour bin as `_newBin` creates it, with no detection folded in yet. -/
def exEmptyHourBin : Bin := newBin .hour exDetection.src 0 3599999 0 true 0

/-- A detection missing both `cameraId` and `timezone`. -/
def exRawBad : RawDetection := ⟨"raw1", 0, none, "cu", "si", "zo", 1, 4, none⟩

/-- A fully populated detection, in raw form. -/
def exRawGood : RawDetection := ⟨"id1", 0, some "cam", "cu", "si", "zo", 2, 12, some 0⟩

/-- A detection reporting `totalSpaces = 0`. -/
def exZeroTotal : Detection := ⟨"z1", 0, "cam", "cu", "si", "zo", 0, 0, 0⟩

/-- A handler run over one detection with all reads and writes succeeding. -/
def exRunAllOk : HandlerOutcome := handler 0 [exDetection] emptyBins true (fun _ => true)

/-- The single hour bin produced by aggregating `exDetection` from scratch. -/
def exHourBinOut : Bin :=
  updateBinWithParkingDetection 0
    (newBin .hour exDetection.src (binStart .hour exDetection.timezone exDetection.ts)
      (binEnd .hour exDetection.timezone exDetection.ts) exDetection.timezone true 0)
    exDetection

/-- An existing (fresh, empty) day bin, used as a pre-existing upper bin. -/
def exDayBin : Bin := newBin .day exDetection.src 0 86399999 0 false 0

-- ---- heap model of bin objects (JS reference semantics) ----

/-- The heap of live bin objects: object identity is a slot index into this
store; mutating a bin in place is overwriting its slot, and the `Map` holds
references (slot indices), not copies. -/
abbrev Store := List Bin

def dummyBin : Bin := newBin .hour ⟨"", "", "", ""⟩ 0 0 0 false 0

/-- Dereference a bin object. -/
def readRef (s : Store) (r : Nat) : Bin := s.getD r dummyBin

abbrev RefIndex := List (String × Nat)

/-- Seed the in-memory `Map` with references to the caller's existing bin
objects (the seeding loops of `_aggregateHourBins` and `_rollupBins`). -/
def seedRefs (size : BinSize) (store : Store) (existingRefs : List Nat) : RefIndex :=
  existingRefs.foldl
    (fun idx r =>
      mapSet idx (makeBinKey size (readRef store r).cameraId (readRef store r).startTs) r) []

/-- The detection loop of `_aggregateHourBins` over the heap: a hit returns a
reference whose slot is then mutated in place (`bins` keeps pointing at the same
object); a miss allocates a fresh slot and appends its reference to the map. -/
def hourFoldStepH (now : Int) (sm : Store × RefIndex) (detection : Detection) :
    Store × RefIndex :=
  let start := binStart .hour detection.timezone detection.ts
  let endT := binEnd .hour detection.timezone detection.ts
  let key := makeBinKey .hour detection.cameraId start
  match mapGet sm.2 key with
  | some r =>
      let bin := readRef sm.1 r
      let bin2 := if hasAggregatedId bin detection.id then bin
        else updateBinWithParkingDetection now bin detection
      (sm.1.set r bin2, sm.2)
  | none =>
      let bin := newBin .hour detection.src start endT detection.timezone true now
      let bin2 := if hasAggregatedId bin detection.id then bin
        else updateBinWithParkingDetection now bin detection
      (sm.1 ++ [bin2], sm.2 ++ [(key, sm.1.length)])

/-- `_aggregateHourBins` over the heap: returns the final heap and the
references held by the returned bin array (`Array.from(bins.values())`). -/
def aggregateHourBinsH (now : Int) (detections : List Detection) (store : Store)
    (existingRefs : List Nat) : Store × List Nat :=
  let sm := detections.foldl (hourFoldStepH now) (store, seedRefs .hour store existingRefs)
  (sm.1, sm.2.map Prod.snd)

/-- The lower-bin loop of `_rollupBins` over the heap; lower bins are only read,
upper bins are mutated in place through their references. -/
def rollupStepH (now : Int) (size : BinSize) (sm : Store × RefIndex) (lowerBin : Bin) :
    Store × RefIndex :=
  let start := binStart size lowerBin.timezone lowerBin.startTs
  let endT := binEnd size lowerBin.timezone lowerBin.startTs
  let key := makeBinKey size lowerBin.cameraId start
  match mapGet sm.2 key with
  | some r =>
      (sm.1.set r (updateParkingBinWithBin now (readRef sm.1 r) lowerBin), sm.2)
  | none =>
      let bin := newBin size lowerBin.src start endT lowerBin.timezone false now
      (sm.1 ++ [updateParkingBinWithBin now bin lowerBin], sm.2 ++ [(key, sm.1.length)])

/-- `_rollupBins` over the heap. -/
def rollupBinsH (now : Int) (lowerBins : List Bin) (size : BinSize) (store : Store)
    (existingRefs : List Nat) : Store × List Nat :=
  let sm := lowerBins.foldl (rollupStepH now size) (store, seedRefs size store existingRefs)
  (sm.1, sm.2.map Prod.snd)

/-- Simulation relation between the heap-side map (references into `store`) and
the pure-side map (bin values): reading every reference yields the pure map,
every reference is live, and no two map entries alias the same slot. -/
def IndexSim (store : Store) (idx : RefIndex) (m : BinIndex) : Prop :=
  m = idx.map (fun kr => (kr.1, readRef store kr.2)) ∧
  (∀ kr ∈ idx, kr.2 < store.length) ∧
  (idx.map Prod.snd).Nodup

-- ---- theorems ----

/-- C2 counterexample: the claim says year bins are rolled up from day bins. With
an existing month bin and no detections, `aggregate` returns a year bin carrying
the month bin's count, while a rollup of the (empty) day-bin output over the
existing (empty) year bins returns no year bin at all — so the year level is not
computed from the day bins. -/
theorem yearRollup_not_from_dayBins :
    (aggregate 0 [] exMonthOnly).yearBins ≠
      rollupBins 0 (aggregate 0 [] exMonthOnly).dayBins .year exMonthOnly.yearBins := by
  decide

/-- C2 (amended): the rollup pipeline of `aggregate` is hour→day, hour→week,
day→month, and month→year: each level of the returned bin set is exactly the
rollup of the previously computed level named here, over the corresponding
existing bins. -/
theorem aggregate_pipeline (now : Int) (detections : List Detection) (existingBins : Bins) :
    (aggregate now detections existingBins).hourBins
        = aggregateHourBins now detections existingBins.hourBins ∧
    (aggregate now detections existingBins).dayBins
        = rollupBins now (aggregate now detections existingBins).hourBins .day
            existingBins.dayBins ∧
    (aggregate now detections existingBins).weekBins
        = rollupBins now (aggregate now detections existingBins).hourBins .week
            existingBins.weekBins ∧
    (aggregate now detections existingBins).monthBins
        = rollupBins now (aggregate now detections existingBins).dayBins .month
            existingBins.monthBins ∧
    (aggregate now detections existingBins).yearBins
        = rollupBins now (aggregate now detections existingBins).monthBins .year
            existingBins.yearBins :=
  ⟨rfl, rfl, rfl, rfl, rfl⟩

/-- C3 counterexample: the claim says an empty lower bin never creates an upper
bin. Rolling up a single freshly created (empty) hour bin over no existing day
bins returns a day-bin set with one (empty) bin in it, not the empty set. -/
theorem emptyLowerBin_creates_upperBin :
    exEmptyHourBin.aggregatedNumber = 0 ∧ rollupBins 0 [exEmptyHourBin] .day [] ≠ [] := by
  decide

/-- C3 (amended): an empty lower bin is skipped by the merge — merging it into any
upper bin leaves that bin unchanged — but it is not skipped by the lookup-or-create
step: rolling up a single empty lower bin with no matching existing upper bin
returns exactly one freshly created, still-empty upper bin for its bucket. -/
theorem rollup_skips_empty_merge_but_creates_bin (now : Int) (size : BinSize) (lb : Bin)
    (h : lb.aggregatedNumber = 0) :
    (∀ bin, updateParkingBinWithBin now bin lb = bin) ∧
    rollupBins now [lb] size [] =
      [newBin size lb.src (binStart size lb.timezone lb.startTs)
        (binEnd size lb.timezone lb.startTs) lb.timezone false now] := by
  constructor
  · intro bin
    simp [updateParkingBinWithBin, h]
  · simp [rollupBins, seedBins, rollupStep, updateParkingBinWithBin, h, mapGet, mapSet]

/-- C3 witness: the amended statement at the concrete empty hour bin. -/
theorem rollup_skips_empty_merge_but_creates_bin_w :
    (∀ bin, updateParkingBinWithBin 0 bin exEmptyHourBin = bin) ∧
    rollupBins 0 [exEmptyHourBin] .day [] =
      [newBin .day exEmptyHourBin.src
        (binStart .day exEmptyHourBin.timezone exEmptyHourBin.startTs)
        (binEnd .day exEmptyHourBin.timezone exEmptyHourBin.startTs)
        exEmptyHourBin.timezone false 0] :=
  rollup_skips_empty_merge_but_creates_bin 0 .day exEmptyHourBin (by decide)

/-- C10: duplicate-ID suppression is per hour bin, not per batch: two detections
with the same ID and camera but timestamps in different hour buckets are both
folded in, each counted once in its own hour bin, so the shared ID appears in the
`aggregatedIds` of two distinct hour bins. -/
theorem duplicateId_counted_in_two_hour_buckets :
    exDup1.id = exDup2.id ∧ exDup1.cameraId = exDup2.cameraId ∧
    binStart .hour exDup1.timezone exDup1.ts ≠ binStart .hour exDup2.timezone exDup2.ts ∧
    ((aggregate 0 [exDup1, exDup2] emptyBins).hourBins.map fun b =>
        (b.startTs, b.aggregatedNumber, b.aggregatedIds))
      = [(0, 1, some ["dup"]), (7200000, 1, some ["dup"])] := by
  decide

/-- C1: replaying the same batch against the first call's output is not
idempotent. The hour level is protected by the ID check, but the rollup re-merges
every (already merged) hour bin into the existing day bin, doubling its count and
sums; the year level even quadruples, being rolled up from the doubled month bins
re-merged into the existing year bin. The spec and the hour-level comment
(`Avoid double-counting`) state the intent the rollup fails to implement. -/
theorem aggregate_replay_double_counts :
    (exBins1.hourBins.map Bin.aggregatedNumber = [1]) ∧
    (exBins1.dayBins.map Bin.aggregatedNumber = [1]) ∧
    ((aggregate 0 [exDetection] exBins1).hourBins.map Bin.aggregatedNumber = [1]) ∧
    ((aggregate 0 [exDetection] exBins1).dayBins.map Bin.aggregatedNumber = [2]) ∧
    ((aggregate 0 [exDetection] exBins1).yearBins.map Bin.aggregatedNumber = [4]) := by
  decide

/-- C6 counterexample: the claim says a detection missing `cameraId` or `timezone`
is skipped and contributes to no bin. A detection missing both is folded into an
hour bin all the same (count 1, its ID recorded), under the JS coercions of
`undefined`. -/
theorem missingFields_detection_not_skipped :
    exRawBad.cameraId = none ∧ exRawBad.timezone = none ∧
    ((aggregateRaw 0 0 [exRawBad] emptyBins).hourBins.map fun b =>
        (b.aggregatedNumber, b.aggregatedIds)) = [(1, some ["raw1"])] := by
  decide

/-- C6 (amended): `aggregate` contains no field-presence check: any single
detection — with or without `cameraId`/`timezone` — whose ID is not already
recorded is folded into exactly one hour bin; in a mixed batch the malformed
detection lands in its own (garbage-keyed) bin and the well-formed detections are
aggregated normally, with no abort. -/
theorem malformed_detection_folded_not_skipped :
    (∀ (sysZone now : Int) (r : RawDetection),
      ((aggregateRaw sysZone now [r] emptyBins).hourBins.map fun b =>
          (b.aggregatedNumber, b.aggregatedIds)) = [(1, some [r.id])]) ∧
    ((aggregateRaw 0 0 [exRawBad, exRawGood] emptyBins).hourBins.map fun b =>
        (b.cameraId, b.aggregatedNumber, b.aggregatedIds))
      = [("undefined", 1, some ["raw1"]), ("cam", 1, some ["id1"])] := by
  constructor
  · intro sysZone now r
    rfl
  · decide

-- ---- handler write-ordering lemmas ----

theorem commitWrites_all_ok (ok : Nat → Bool) (hok : ∀ j, ok j = true) :
    ∀ (ws : List WriteOp) (i : Nat), commitWrites ok i ws = (ws, true) := by
  intro ws
  induction ws with
  | nil => intro i; rfl
  | cons w ws ih => intro i; simp [commitWrites, hok i, ih (i + 1)]

theorem commitWrites_mem_eq (ok : Nat → Bool) (v : Int) :
    ∀ (ws : List WriteOp) (i : Nat),
      (∀ u ∈ ws.dropLast, ∀ x, u ≠ WriteOp.putWatermark x) →
      WriteOp.putWatermark v ∈ (commitWrites ok i ws).1 →
      (commitWrites ok i ws).1 = ws := by
  intro ws
  induction ws with
  | nil => intro i _ hmem; simp [commitWrites] at hmem
  | cons w ws ih =>
      intro i hdrop hmem
      by_cases hok : ok i = true
      · simp only [commitWrites, hok, if_true] at hmem ⊢
        rcases List.mem_cons.mp hmem with heq | hrest
        · cases ws with
          | nil => simp [commitWrites]
          | cons w2 ws2 =>
              exfalso
              exact hdrop w (by simp [List.dropLast]) v heq.symm
        · cases ws with
          | nil => simp [commitWrites] at hrest
          | cons w2 ws2 =>
              have hdrop2 : ∀ u ∈ (w2 :: ws2).dropLast, ∀ x, u ≠ WriteOp.putWatermark x := by
                intro u hu x
                exact hdrop u (by simp [List.dropLast, hu]) x
              rw [ih (i + 1) hdrop2 hrest]
      · simp [commitWrites, hok] at hmem

theorem plannedWrites_dropLast (updatedBins : Bins) (now : Int) :
    (plannedWrites updatedBins now).dropLast =
      binLevels.filterMap fun l =>
        if (updatedBins.level l).length > 0 then
          some (WriteOp.putBins l (updatedBins.level l))
        else none := by
  rw [plannedWrites, List.dropLast_concat]

theorem plannedWrites_dropLast_no_watermark (updatedBins : Bins) (now : Int) :
    ∀ u ∈ (plannedWrites updatedBins now).dropLast, ∀ x, u ≠ WriteOp.putWatermark x := by
  rw [plannedWrites_dropLast]
  intro u hu x
  rcases List.mem_filterMap.mp hu with ⟨l, _, hfl⟩
  by_cases hlen : (updatedBins.level l).length > 0
  · rw [if_pos hlen] at hfl
    rw [← Option.some_inj.mp hfl]
    intro hcontra
    exact WriteOp.noConfusion hcontra
  · rw [if_neg hlen] at hfl
    exact Option.noConfusion hfl

theorem handler_writes_eq (now : Int) (D : List Detection) (E : Bins)
    (writeOk : Nat → Bool) (hD : ¬ D.length = 0) :
    (handler now D E true writeOk).writes =
      (commitWrites writeOk 0 (plannedWrites (aggregate now D E) now)).1 := by
  simp only [handler, Bool.true_eq_false, if_false, hD, if_neg, ite_false]
  by_cases hr : (commitWrites writeOk 0 (plannedWrites (aggregate now D E) now)).2 = true
  · rw [if_pos hr]
  · rw [if_neg hr]

/-- C5: the watermark write is gated behind every bin write. If the run commits
the watermark write at all, then every planned write committed — in particular
every non-empty granularity's bin batch — the watermark value is the run's own
start time, and the watermark write is the last committed write; consequently any
failure before or during the bin writes leaves the watermark record untouched. -/
theorem watermark_write_last_and_gated (now : Int) (D : List Detection) (E : Bins)
    (readsOk : Bool) (writeOk : Nat → Bool) (v : Int)
    (hmem : WriteOp.putWatermark v ∈ (handler now D E readsOk writeOk).writes) :
    v = now ∧
    (handler now D E readsOk writeOk).writes = plannedWrites (aggregate now D E) now ∧
    (handler now D E readsOk writeOk).writes.getLast? = some (WriteOp.putWatermark now) ∧
    ∀ l, (aggregate now D E).level l ≠ [] →
      WriteOp.putBins l ((aggregate now D E).level l) ∈
        (handler now D E readsOk writeOk).writes.dropLast := by
  cases readsOk with
  | false => simp [handler] at hmem
  | true =>
      by_cases hD : D.length = 0
      · simp [handler, hD] at hmem
      · rw [handler_writes_eq now D E writeOk hD] at hmem ⊢
        have hcommit :=
          commitWrites_mem_eq writeOk v (plannedWrites (aggregate now D E) now) 0
            (plannedWrites_dropLast_no_watermark (aggregate now D E) now) hmem
        rw [hcommit] at hmem ⊢
        have hv : v = now := by
          rcases List.mem_append.mp hmem with hbw | hwm
          · exfalso
            exact plannedWrites_dropLast_no_watermark (aggregate now D E) now
              (WriteOp.putWatermark v)
              (by rw [plannedWrites_dropLast]; exact hbw) v rfl
          · cases List.mem_singleton.mp hwm
            rfl
        refine ⟨hv, rfl, ?_, ?_⟩
        · rw [plannedWrites, List.getLast?_concat]
        · intro l hl
          rw [plannedWrites_dropLast]
          exact List.mem_filterMap.mpr
            ⟨l, by cases l <;> simp [binLevels],
              by rw [if_pos (by simpa [List.length_pos] using hl)]⟩

/-- C5 witness: the gating theorem applied to a concrete all-writes-succeed run,
whose committed writes do contain the watermark write. -/
theorem watermark_write_last_and_gated_w :
    (0 : Int) = 0 ∧
    (handler 0 [exDetection] emptyBins true (fun _ => true)).writes =
      plannedWrites (aggregate 0 [exDetection] emptyBins) 0 ∧
    (handler 0 [exDetection] emptyBins true (fun _ => true)).writes.getLast? =
      some (WriteOp.putWatermark 0) ∧
    ∀ l, (aggregate 0 [exDetection] emptyBins).level l ≠ [] →
      WriteOp.putBins l ((aggregate 0 [exDetection] emptyBins).level l) ∈
        (handler 0 [exDetection] emptyBins true (fun _ => true)).writes.dropLast :=
  watermark_write_last_and_gated 0 [exDetection] emptyBins true (fun _ => true) 0 (by decide)

/-- C4 counterexample: the claim says a successful aggregation run returns the
aggregated count and the per-granularity bins-updated counts. A concrete
successful run over one detection returns a body with exactly the keys `status`
and `message` — neither `aggregatedCount` nor `binsUpdatedByLevel` is in the
returned result. -/
theorem successBody_lacks_bin_counts :
    exRunAllOk.statusCode = 200 ∧
    exRunAllOk.body.keys = ["status", "message"] ∧
    "binsUpdatedByLevel" ∉ exRunAllOk.body.keys ∧
    "aggregatedCount" ∉ exRunAllOk.body.keys := by
  decide

/-- C4 (amended): a successful run (non-empty batch, every write succeeding)
returns status 200 with body `{status: "success", message: "Aggregated N new
detections."}` — the aggregated count appears only inside the message text — and
the per-granularity bins-updated counts are computed and logged
(`loggedBinCounts`), not returned in the body. -/
theorem success_response_is_status_and_message (now : Int) (D : List Detection) (E : Bins)
    (writeOk : Nat → Bool) (hD : D.length ≠ 0) (hok : ∀ j, writeOk j = true) :
    handler now D E true writeOk =
      { statusCode := 200
        body := RespBody.fields
          [("status", "success"),
           ("message", "Aggregated " ++ toString D.length ++ " new detections.")]
        writes := plannedWrites (aggregate now D E) now
        loggedBinCounts := some (numberOfBinsUpdated (aggregate now D E)) } := by
  simp [handler, hD, commitWrites_all_ok writeOk hok]

/-- C4 witness: the amended statement at the concrete one-detection run. -/
theorem success_response_is_status_and_message_w :
    handler 0 [exDetection] emptyBins true (fun _ => true) =
      { statusCode := 200
        body := RespBody.fields
          [("status", "success"),
           ("message", "Aggregated " ++ toString (1 : Nat) ++ " new detections.")]
        writes := plannedWrites (aggregate 0 [exDetection] emptyBins) 0
        loggedBinCounts := some (numberOfBinsUpdated (aggregate 0 [exDetection] emptyBins)) } :=
  success_response_is_status_and_message 0 [exDetection] emptyBins (fun _ => true)
    (by decide) (fun j => rfl)

-- ---- generic fold / index lemmas ----

theorem foldl_preserve {α β : Type} (P : β → Prop) (Q : α → Prop) (f : β → α → β)
    (hf : ∀ b a, P b → Q a → P (f b a)) :
    ∀ (l : List α) (b : β), P b → (∀ a ∈ l, Q a) → P (l.foldl f b) := by
  intro l
  induction l with
  | nil => intro b hb _; exact hb
  | cons a t ih =>
      intro b hb hl
      exact ih (f b a) (hf b a hb (hl a (List.mem_cons_self a t)))
        (fun x hx => hl x (List.mem_cons_of_mem a hx))

theorem mapGet_prop {β : Type} {P : β → Prop} :
    ∀ (m : List (String × β)), (∀ e ∈ m, P e.2) → ∀ (k : String) (v : β),
      mapGet m k = some v → P v := by
  intro m
  induction m with
  | nil => intro _ k v h; exact Option.noConfusion h
  | cons e rest ih =>
      intro hm k v h
      obtain ⟨k1, w⟩ := e
      by_cases hk : k1 = k
      · rw [mapGet, if_pos hk] at h
        rw [← Option.some_inj.mp h]
        exact hm (k1, w) (List.mem_cons_self _ _)
      · rw [mapGet, if_neg hk] at h
        exact ih (fun e he => hm e (List.mem_cons_of_mem _ he)) k v h

theorem mapSet_prop {β : Type} {P : β → Prop} :
    ∀ (m : List (String × β)), (∀ e ∈ m, P e.2) → ∀ (k : String) (v : β), P v →
      ∀ e ∈ mapSet m k v, P e.2 := by
  intro m
  induction m with
  | nil =>
      intro _ k v hv e he
      rw [mapSet] at he
      rcases List.mem_singleton.mp he with rfl
      exact hv
  | cons e0 rest ih =>
      intro hm k v hv e he
      obtain ⟨k1, w⟩ := e0
      by_cases hk : k1 = k
      · rw [mapSet, if_pos hk] at he
        rcases List.mem_cons.mp he with rfl | hrest
        · exact hv
        · exact hm e (List.mem_cons_of_mem _ hrest)
      · rw [mapSet, if_neg hk] at he
        rcases List.mem_cons.mp he with rfl | hrest
        · exact hm (k1, w) (List.mem_cons_self _ _)
        · exact ih (fun x hx => hm x (List.mem_cons_of_mem _ hx)) k v hv e hrest

theorem seedBins_prop {P : Bin → Prop} (size : BinSize) (existing : List Bin)
    (hex : ∀ b ∈ existing, P b) : ∀ e ∈ seedBins size existing, P e.2 := by
  refine foldl_preserve (fun m => ∀ e ∈ m, P e.2) P _
    (fun m b hm hb => mapSet_prop m hm _ b hb) existing [] ?_ hex
  intro e he
  exact absurd he (List.not_mem_nil e)

theorem hourFoldStep_prop {P : Bin → Prop} (now : Int) (d : Detection) (m : BinIndex)
    (hm : ∀ e ∈ m, P e.2)
    (hFC : P (if hasAggregatedId (newBin .hour d.src (binStart .hour d.timezone d.ts)
          (binEnd .hour d.timezone d.ts) d.timezone true now) d.id = true then
        newBin .hour d.src (binStart .hour d.timezone d.ts)
          (binEnd .hour d.timezone d.ts) d.timezone true now
      else
        updateBinWithParkingDetection now
          (newBin .hour d.src (binStart .hour d.timezone d.ts)
            (binEnd .hour d.timezone d.ts) d.timezone true now) d))
    (hF : ∀ x, P x →
      P (if hasAggregatedId x d.id = true then x else updateBinWithParkingDetection now x d)) :
    ∀ e ∈ hourFoldStep now m d, P e.2 := by
  intro e he
  simp only [hourFoldStep] at he
  cases hg : mapGet m (makeBinKey .hour d.cameraId (binStart .hour d.timezone d.ts)) with
  | none =>
      rw [hg] at he
      exact mapSet_prop m hm _ _ hFC e he
  | some x =>
      rw [hg] at he
      exact mapSet_prop m hm _ _ (hF x (mapGet_prop m hm _ x hg)) e he

theorem aggregateHourBins_prop {P : Bin → Prop} (now : Int) (detections : List Detection)
    (existing : List Bin) (hex : ∀ b ∈ existing, P b)
    (hFC : ∀ d : Detection,
      P (if hasAggregatedId (newBin .hour d.src (binStart .hour d.timezone d.ts)
            (binEnd .hour d.timezone d.ts) d.timezone true now) d.id = true then
          newBin .hour d.src (binStart .hour d.timezone d.ts)
            (binEnd .hour d.timezone d.ts) d.timezone true now
        else
          updateBinWithParkingDetection now
            (newBin .hour d.src (binStart .hour d.timezone d.ts)
              (binEnd .hour d.timezone d.ts) d.timezone true now) d))
    (hF : ∀ (d : Detection) x, P x →
      P (if hasAggregatedId x d.id = true then x else updateBinWithParkingDetection now x d)) :
    ∀ b ∈ aggregateHourBins now detections existing, P b := by
  intro b hb
  obtain ⟨e, he, rfl⟩ := List.mem_map.mp hb
  exact foldl_preserve (fun m => ∀ e ∈ m, P e.2) (fun _ => True) (hourFoldStep now)
    (fun m d hm _ => hourFoldStep_prop now d m hm (hFC d) (hF d)) detections
    (seedBins .hour existing) (seedBins_prop .hour existing hex) (fun _ _ => trivial) e he

theorem rollupStep_prop {P Q : Bin → Prop} (now : Int) (size : BinSize) (lb : Bin)
    (m : BinIndex) (hm : ∀ e ∈ m, P e.2) (hlb : Q lb)
    (hFC : Q lb → P (updateParkingBinWithBin now
      (newBin size lb.src (binStart size lb.timezone lb.startTs)
        (binEnd size lb.timezone lb.startTs) lb.timezone false now) lb))
    (hF : ∀ x, P x → Q lb → P (updateParkingBinWithBin now x lb)) :
    ∀ e ∈ rollupStep now size m lb, P e.2 := by
  intro e he
  simp only [rollupStep] at he
  cases hg : mapGet m (makeBinKey size lb.cameraId (binStart size lb.timezone lb.startTs)) with
  | none =>
      rw [hg] at he
      exact mapSet_prop m hm _ _ (hFC hlb) e he
  | some x =>
      rw [hg] at he
      exact mapSet_prop m hm _ _ (hF x (mapGet_prop m hm _ x hg) hlb) e he

theorem rollupBins_prop {P Q : Bin → Prop} (now : Int) (lowerBins : List Bin)
    (size : BinSize) (existing : List Bin)
    (hlower : ∀ b ∈ lowerBins, Q b) (hex : ∀ b ∈ existing, P b)
    (hFC : ∀ lb : Bin, Q lb → P (updateParkingBinWithBin now
      (newBin size lb.src (binStart size lb.timezone lb.startTs)
        (binEnd size lb.timezone lb.startTs) lb.timezone false now) lb))
    (hF : ∀ (lb x : Bin), P x → Q lb → P (updateParkingBinWithBin now x lb)) :
    ∀ b ∈ rollupBins now lowerBins size existing, P b := by
  intro b hb
  obtain ⟨e, he, rfl⟩ := List.mem_map.mp hb
  exact foldl_preserve (fun m => ∀ e ∈ m, P e.2) Q (rollupStep now size)
    (fun m lb hm hq => rollupStep_prop now size lb m hm hq (hFC lb) (fun x hx hq2 => hF lb x hx hq2))
    lowerBins (seedBins size existing) (seedBins_prop size existing hex) hlower e he

-- ---- arithmetic helpers for the min/mean/max invariant ----

theorem min_mul_add_le {a c so sc : Rat} {n m : Nat}
    (h1 : a * (n : Rat) ≤ so) (h2 : c * (m : Rat) ≤ sc) :
    min a c * (((n + m : Nat) : Rat)) ≤ so + sc := by
  have k1 : min a c * (n : Rat) ≤ a * (n : Rat) :=
    mul_le_mul_of_nonneg_right (min_le_left a c) (Nat.cast_nonneg n)
  have k2 : min a c * (m : Rat) ≤ c * (m : Rat) :=
    mul_le_mul_of_nonneg_right (min_le_right a c) (Nat.cast_nonneg m)
  push_cast
  nlinarith [k1, k2, h1, h2]

theorem le_max_mul_add {a c so sc : Rat} {n m : Nat}
    (h1 : so ≤ a * (n : Rat)) (h2 : sc ≤ c * (m : Rat)) :
    so + sc ≤ max a c * (((n + m : Nat) : Rat)) := by
  have k1 : a * (n : Rat) ≤ max a c * (n : Rat) :=
    mul_le_mul_of_nonneg_right (le_max_left a c) (Nat.cast_nonneg n)
  have k2 : c * (m : Rat) ≤ max a c * (m : Rat) :=
    mul_le_mul_of_nonneg_right (le_max_right a c) (Nat.cast_nonneg m)
  push_cast
  nlinarith [k1, k2, h1, h2]

-- ---- well-formedness preservation ----

theorem newBin_wf (size : BinSize) (source : SrcIds) (start endT tz : Int) (keepIds : Bool)
    (now : Int) : BinWF (newBin size source start endT tz keepIds now) := by
  constructor
  · intro _
    exact ⟨rfl, rfl, rfl, rfl, rfl, rfl⟩
  · intro h
    exact absurd rfl h

theorem updateBin_wf (now : Int) (b : Bin) (d : Detection) (hb : BinWF b) :
    BinWF (updateBinWithParkingDetection now b d) := by
  constructor
  · intro h
    exact absurd h (Nat.succ_ne_zero b.aggregatedNumber)
  · intro _
    by_cases hn : b.aggregatedNumber = 0
    · obtain ⟨hso, hst, ho1, ho2, ht1, ht2⟩ := hb.1 hn
      refine ⟨d.occupiedSpaces, d.occupiedSpaces, d.totalSpaces, d.totalSpaces,
        ?_, ?_, ?_, ?_, ?_, ?_, ?_, ?_, ?_, ?_⟩ <;>
        simp [updateBinWithParkingDetection, ho1, ho2, ht1, ht2, hso, hst, hn]
    · obtain ⟨mno, mxo, mnt, mxt, e1, e2, e3, e4, c1, c2, c3, c4, m1, m2⟩ := hb.2 hn
      have hx1 : d.occupiedSpaces * ((1 : Nat) : Rat) ≤ d.occupiedSpaces := by
        simp
      have hx2 : d.totalSpaces * ((1 : Nat) : Rat) ≤ d.totalSpaces := by
        simp
      have hx3 : d.occupiedSpaces ≤ d.occupiedSpaces * ((1 : Nat) : Rat) := by
        simp
      have hx4 : d.totalSpaces ≤ d.totalSpaces * ((1 : Nat) : Rat) := by
        simp
      refine ⟨min mno d.occupiedSpaces, max mxo d.occupiedSpaces,
        min mnt d.totalSpaces, max mxt d.totalSpaces, ?_, ?_, ?_, ?_, ?_, ?_, ?_, ?_, ?_, ?_⟩
      · simp [updateBinWithParkingDetection, e1]
      · simp [updateBinWithParkingDetection, e2]
      · simp [updateBinWithParkingDetection, e3]
      · simp [updateBinWithParkingDetection, e4]
      · exact min_mul_add_le c1 hx1
      · exact le_max_mul_add c2 hx3
      · exact min_mul_add_le c3 hx2
      · exact le_max_mul_add c4 hx4
      · rfl
      · rfl

theorem mergeBin_wf (now : Int) (b c : Bin) (hb : BinWF b) (hc : BinWF c) :
    BinWF (updateParkingBinWithBin now b c) := by
  by_cases hm : c.aggregatedNumber = 0
  · simpa [updateParkingBinWithBin, hm] using hb
  · obtain ⟨cmno, cmxo, cmnt, cmxt, f1, f2, f3, f4, d1, d2, d3, d4, g1, g2⟩ := hc.2 hm
    constructor
    · intro h
      rw [updateParkingBinWithBin, if_neg hm] at h
      simp at h
      exact absurd h.2 hm
    · intro _
      by_cases hn : b.aggregatedNumber = 0
      · obtain ⟨hso, hst, ho1, ho2, ht1, ht2⟩ := hb.1 hn
        refine ⟨cmno, cmxo, cmnt, cmxt, ?_, ?_, ?_, ?_, ?_, ?_, ?_, ?_, ?_, ?_⟩ <;>
          simp [updateParkingBinWithBin, hm, hn, ho1, ho2, ht1, ht2, hso, hst, f1, f2, f3, f4,
            d1, d2, d3, d4]
      · obtain ⟨mno, mxo, mnt, mxt, e1, e2, e3, e4, c1, c2, c3, c4, m1, m2⟩ := hb.2 hn
        refine ⟨min mno cmno, max mxo cmxo, min mnt cmnt, max mxt cmxt,
          ?_, ?_, ?_, ?_, ?_, ?_, ?_, ?_, ?_, ?_⟩
        · simp [updateParkingBinWithBin, hm, e1, f1]
        · simp [updateParkingBinWithBin, hm, e2, f2]
        · simp [updateParkingBinWithBin, hm, e3, f3]
        · simp [updateParkingBinWithBin, hm, e4, f4]
        · rw [updateParkingBinWithBin, if_neg hm]
          exact min_mul_add_le c1 d1
        · rw [updateParkingBinWithBin, if_neg hm]
          exact le_max_mul_add c2 d2
        · rw [updateParkingBinWithBin, if_neg hm]
          exact min_mul_add_le c3 d3
        · rw [updateParkingBinWithBin, if_neg hm]
          exact le_max_mul_add c4 d4
        · rw [updateParkingBinWithBin, if_neg hm]
        · rw [updateParkingBinWithBin, if_neg hm]

theorem meanBounded_of_wf (b : Bin) (hb : BinWF b) : MeanBounded b := by
  intro hn
  obtain ⟨mno, mxo, mnt, mxt, e1, e2, e3, e4, c1, c2, c3, c4, m1, m2⟩ := hb.2 hn
  have hpos : (0 : Rat) < (b.aggregatedNumber : Rat) :=
    Nat.cast_pos.mpr (Nat.pos_of_ne_zero hn)
  have hne : ((b.aggregatedNumber : Rat)) ≠ 0 := ne_of_gt hpos
  refine ⟨b.sumOccupiedSpaces / (b.aggregatedNumber : Rat),
    b.sumTotalSpaces / (b.aggregatedNumber : Rat), mno, mxo, mnt, mxt,
    ?_, ?_, e1, e2, e3, e4, ?_, ?_, ?_, ?_⟩
  · rw [m1, jsDiv, if_neg hne]
  · rw [m2, jsDiv, if_neg hne]
  · exact (le_div_iff₀ hpos).mpr c1
  · exact (div_le_iff₀ hpos).mpr c2
  · exact (le_div_iff₀ hpos).mpr c3
  · exact (div_le_iff₀ hpos).mpr c4

theorem foldOrSkip_wf (now : Int) (d : Detection) (x : Bin) (hx : BinWF x) :
    BinWF (if hasAggregatedId x d.id = true then x
      else updateBinWithParkingDetection now x d) := by
  by_cases hid : hasAggregatedId x d.id = true
  · rwa [if_pos hid]
  · rw [if_neg hid]
    exact updateBin_wf now x d hx

theorem aggregateHourBins_wf (now : Int) (detections : List Detection) (existing : List Bin)
    (hex : ∀ b ∈ existing, BinWF b) :
    ∀ b ∈ aggregateHourBins now detections existing, BinWF b :=
  aggregateHourBins_prop now detections existing hex
    (fun d => foldOrSkip_wf now d _
      (newBin_wf .hour d.src (binStart .hour d.timezone d.ts)
        (binEnd .hour d.timezone d.ts) d.timezone true now))
    (fun d x hx => foldOrSkip_wf now d x hx)

theorem rollupBins_wf (now : Int) (lowerBins : List Bin) (size : BinSize)
    (existing : List Bin) (hlow : ∀ b ∈ lowerBins, BinWF b)
    (hex : ∀ b ∈ existing, BinWF b) :
    ∀ b ∈ rollupBins now lowerBins size existing, BinWF b :=
  rollupBins_prop now lowerBins size existing hlow hex
    (fun lb hlb => mergeBin_wf now _ lb
      (newBin_wf size lb.src (binStart size lb.timezone lb.startTs)
        (binEnd size lb.timezone lb.startTs) lb.timezone false now) hlb)
    (fun lb x hx hlb => mergeBin_wf now x lb hx hlb)

theorem aggregate_wf (now : Int) (D : List Detection) (E : Bins)
    (hE : ∀ s, ∀ b ∈ E.level s, BinWF b) :
    ∀ s, ∀ b ∈ (aggregate now D E).level s, BinWF b := by
  have hh := aggregateHourBins_wf now D E.hourBins (hE .hour)
  have hd := rollupBins_wf now (aggregateHourBins now D E.hourBins) .day E.dayBins hh (hE .day)
  have hw := rollupBins_wf now (aggregateHourBins now D E.hourBins) .week E.weekBins hh (hE .week)
  have hmo := rollupBins_wf now
    (rollupBins now (aggregateHourBins now D E.hourBins) .day E.dayBins) .month E.monthBins
    hd (hE .month)
  have hy := rollupBins_wf now
    (rollupBins now (rollupBins now (aggregateHourBins now D E.hourBins) .day E.dayBins)
      .month E.monthBins) .year E.yearBins hmo (hE .year)
  intro s
  cases s
  · exact hh
  · exact hd
  · exact hw
  · exact hmo
  · exact hy

/-- C7: both fold operations preserve bin well-formedness and yield the
min ≤ mean ≤ max sandwich for occupied and total spaces, and every bin of every
granularity that `aggregate` returns over well-formed existing bins satisfies the
sandwich whenever its `aggregatedNumber` is positive. -/
theorem bins_min_le_mean_le_max (now : Int) :
    (∀ (b : Bin) (d : Detection), BinWF b →
      BinWF (updateBinWithParkingDetection now b d) ∧
        MeanBounded (updateBinWithParkingDetection now b d)) ∧
    (∀ b c : Bin, BinWF b → BinWF c →
      BinWF (updateParkingBinWithBin now b c) ∧
        MeanBounded (updateParkingBinWithBin now b c)) ∧
    (∀ (D : List Detection) (E : Bins),
      (∀ s, ∀ b ∈ E.level s, BinWF b) →
      ∀ s, ∀ b ∈ (aggregate now D E).level s, MeanBounded b) := by
  refine ⟨fun b d hb => ?_, fun b c hb hc => ?_, fun D E hE s b hb => ?_⟩
  · exact ⟨updateBin_wf now b d hb, meanBounded_of_wf _ (updateBin_wf now b d hb)⟩
  · exact ⟨mergeBin_wf now b c hb hc, meanBounded_of_wf _ (mergeBin_wf now b c hb hc)⟩
  · exact meanBounded_of_wf b (aggregate_wf now D E hE s b hb)

/-- C7 witness: folding the concrete detection into the concrete fresh hour bin
preserves well-formedness and bounds the means. -/
theorem bins_min_le_mean_le_max_w :
    BinWF (updateBinWithParkingDetection 0 exEmptyHourBin exDetection) ∧
    MeanBounded (updateBinWithParkingDetection 0 exEmptyHourBin exDetection) :=
  (bins_min_le_mean_le_max 0).1 exEmptyHourBin exDetection
    (newBin_wf .hour exDetection.src 0 3599999 0 true 0)

-- ---- divisions by aggregatedNumber never divide by zero ----

theorem updateBin_meansNum (now : Int) (b : Bin) (d : Detection) :
    MeansNum (updateBinWithParkingDetection now b d) := by
  have hne : (((b.aggregatedNumber + 1 : Nat)) : Rat) ≠ 0 :=
    Nat.cast_ne_zero.mpr (Nat.succ_ne_zero b.aggregatedNumber)
  refine ⟨Nat.succ_ne_zero b.aggregatedNumber,
    ⟨(b.sumOccupiedSpaces + d.occupiedSpaces) / ((b.aggregatedNumber + 1 : Nat) : Rat), ?_⟩,
    ⟨(b.sumTotalSpaces + d.totalSpaces) / ((b.aggregatedNumber + 1 : Nat) : Rat), ?_⟩⟩
  · show jsDiv (b.sumOccupiedSpaces + d.occupiedSpaces) ((b.aggregatedNumber + 1 : Nat) : Rat)
      = JsNum.num _
    rw [jsDiv, if_neg hne]
  · show jsDiv (b.sumTotalSpaces + d.totalSpaces) ((b.aggregatedNumber + 1 : Nat) : Rat)
      = JsNum.num _
    rw [jsDiv, if_neg hne]

theorem mergeBin_meansNum (now : Int) (b c : Bin) (hm : c.aggregatedNumber ≠ 0) :
    MeansNum (updateParkingBinWithBin now b c) := by
  have hsum : b.aggregatedNumber + c.aggregatedNumber ≠ 0 := by omega
  have hne : (((b.aggregatedNumber + c.aggregatedNumber : Nat)) : Rat) ≠ 0 :=
    Nat.cast_ne_zero.mpr hsum
  refine ⟨?_,
    ⟨(b.sumOccupiedSpaces + c.sumOccupiedSpaces) /
      ((b.aggregatedNumber + c.aggregatedNumber : Nat) : Rat), ?_⟩,
    ⟨(b.sumTotalSpaces + c.sumTotalSpaces) /
      ((b.aggregatedNumber + c.aggregatedNumber : Nat) : Rat), ?_⟩⟩
  · rw [updateParkingBinWithBin, if_neg hm]
    exact hsum
  · rw [updateParkingBinWithBin, if_neg hm]
    show jsDiv (b.sumOccupiedSpaces + c.sumOccupiedSpaces)
      ((b.aggregatedNumber + c.aggregatedNumber : Nat) : Rat) = JsNum.num _
    rw [jsDiv, if_neg hne]
  · rw [updateParkingBinWithBin, if_neg hm]
    show jsDiv (b.sumTotalSpaces + c.sumTotalSpaces)
      ((b.aggregatedNumber + c.aggregatedNumber : Nat) : Rat) = JsNum.num _
    rw [jsDiv, if_neg hne]

theorem aggregate_emptyBins_meansNum (now : Int) (D : List Detection) :
    ∀ s, ∀ b ∈ (aggregate now D emptyBins).level s, MeansNum b := by
  have hnil : ∀ b ∈ ([] : List Bin), MeansNum b := fun b hb => absurd hb (List.not_mem_nil b)
  have hh : ∀ b ∈ aggregateHourBins now D [], MeansNum b :=
    aggregateHourBins_prop now D [] hnil
      (fun d => updateBin_meansNum now _ d)
      (fun d x hx => by
        by_cases hid : hasAggregatedId x d.id = true
        · rwa [if_pos hid]
        · rw [if_neg hid]
          exact updateBin_meansNum now x d)
  have hroll : ∀ (lower : List Bin), (∀ b ∈ lower, MeansNum b) →
      ∀ size : BinSize, ∀ b ∈ rollupBins now lower size [], MeansNum b :=
    fun lower hlow size =>
      rollupBins_prop now lower size [] (fun b hb => (hlow b hb).1) hnil
        (fun lb hlb => mergeBin_meansNum now _ lb hlb)
        (fun lb x _ hlb => mergeBin_meansNum now x lb hlb)
  have hd := hroll (aggregateHourBins now D []) hh .day
  have hw := hroll (aggregateHourBins now D []) hh .week
  have hmo := hroll (rollupBins now (aggregateHourBins now D []) .day []) hd .month
  have hy := hroll (rollupBins now (rollupBins now (aggregateHourBins now D []) .day [])
    .month []) hmo .year
  intro s
  cases s
  · exact hh
  · exact hd
  · exact hw
  · exact hmo
  · exact hy

/-- C9: the division producing `occupationRate` is unguarded — a bin whose only
contributing detection reports `totalSpaces = 0` ends with `meanTotalSpaces = 0`
and a non-finite `occupationRate` — whereas every division by `aggregatedNumber`
happens with a positive divisor: both fold operations always store finite means
(the detection fold divides by `count + 1`, the merge by `count + childCount`
with a non-empty child), and every bin reachable through `aggregate` from empty
existing bins has a positive count and finite means. -/
theorem occupationRate_unguarded_mean_divisions_guarded :
    (((aggregate 0 [exZeroTotal] emptyBins).hourBins.map Bin.occupationRate)
        = [JsNum.nonfinite]) ∧
    (∀ (now : Int) (b : Bin) (d : Detection),
      MeansNum (updateBinWithParkingDetection now b d)) ∧
    (∀ (now : Int) (b c : Bin), c.aggregatedNumber ≠ 0 →
      MeansNum (updateParkingBinWithBin now b c)) ∧
    (∀ (now : Int) (D : List Detection) (s : BinSize),
      ∀ b ∈ (aggregate now D emptyBins).level s, MeansNum b) := by
  refine ⟨?_, fun now b d => updateBin_meansNum now b d,
    fun now b c hm => mergeBin_meansNum now b c hm,
    fun now D s b hb => aggregate_emptyBins_meansNum now D s b hb⟩
  simp [aggregate, aggregateHourBins, seedBins, hourFoldStep, mapGet, mapSet, hasAggregatedId,
    updateBinWithParkingDetection, newBin, jsDiv, jsNumDiv, exZeroTotal, emptyBins]

/-- C9 witness: the guarded-divisions statements at a concrete merge (non-empty
child bin) and at the concrete hour bin that `aggregate` produces from scratch. -/
theorem occupationRate_unguarded_mean_divisions_guarded_w :
    MeansNum (updateParkingBinWithBin 0 exEmptyHourBin exMonthBin) ∧ MeansNum exHourBinOut :=
  ⟨occupationRate_unguarded_mean_divisions_guarded.2.2.1 0 exEmptyHourBin exMonthBin
      (by decide),
    occupationRate_unguarded_mean_divisions_guarded.2.2.2 0 [exDetection] .hour exHourBinOut
      (List.Mem.head _)⟩

-- ---- heap lemmas ----

theorem readRef_set_self : ∀ (s : Store) (r : Nat) (v : Bin), r < s.length →
    readRef (s.set r v) r = v := by
  intro s
  induction s with
  | nil => intro r v h; exact absurd h (Nat.not_lt_zero r)
  | cons a t ih =>
      intro r v h
      cases r with
      | zero => rfl
      | succ r => exact ih r v (Nat.lt_of_succ_lt_succ h)

theorem readRef_set_ne : ∀ (s : Store) (r j : Nat) (v : Bin), r ≠ j →
    readRef (s.set r v) j = readRef s j := by
  intro s
  induction s with
  | nil => intro r j v _; rfl
  | cons a t ih =>
      intro r j v hne
      cases r with
      | zero =>
          cases j with
          | zero => exact absurd rfl hne
          | succ j => rfl
      | succ r =>
          cases j with
          | zero => rfl
          | succ j => exact ih r j v (fun h => hne (congrArg Nat.succ h))

theorem readRef_append_lt : ∀ (s t : Store) (r : Nat), r < s.length →
    readRef (s ++ t) r = readRef s r := by
  intro s
  induction s with
  | nil => intro t r h; exact absurd h (Nat.not_lt_zero r)
  | cons a u ih =>
      intro t r h
      cases r with
      | zero => rfl
      | succ r => exact ih t r (Nat.lt_of_succ_lt_succ h)

theorem readRef_append_len : ∀ (s : Store) (b : Bin), readRef (s ++ [b]) s.length = b := by
  intro s
  induction s with
  | nil => intro b; rfl
  | cons a u ih => intro b; exact ih b

theorem mapGet_map {β γ : Type} (g : β → γ) :
    ∀ (m : List (String × β)) (k : String),
      mapGet (m.map fun kv => (kv.1, g kv.2)) k = (mapGet m k).map g := by
  intro m
  induction m with
  | nil => intro k; rfl
  | cons e rest ih =>
      intro k
      obtain ⟨k1, w⟩ := e
      by_cases hk : k1 = k
      · rw [List.map_cons, mapGet, mapGet, if_pos hk, if_pos hk]
        rfl
      · rw [List.map_cons, mapGet, mapGet, if_neg hk, if_neg hk, ih k]

theorem mapSet_of_get_none {β : Type} :
    ∀ (m : List (String × β)) (k : String) (v : β), mapGet m k = none →
      mapSet m k v = m ++ [(k, v)] := by
  intro m
  induction m with
  | nil => intro k v _; rfl
  | cons e rest ih =>
      intro k v h
      obtain ⟨k1, w⟩ := e
      by_cases hk : k1 = k
      · rw [mapGet, if_pos hk] at h
        exact Option.noConfusion h
      · rw [mapGet, if_neg hk] at h
        rw [mapSet, if_neg hk, ih k v h, List.cons_append]

theorem mapGet_mem {β : Type} :
    ∀ (m : List (String × β)) (k : String) (v : β), mapGet m k = some v → (k, v) ∈ m := by
  intro m
  induction m with
  | nil => intro k v h; exact Option.noConfusion h
  | cons e rest ih =>
      intro k v h
      obtain ⟨k1, w⟩ := e
      by_cases hk : k1 = k
      · rw [mapGet, if_pos hk] at h
        rw [← Option.some_inj.mp h, ← hk]
        exact List.mem_cons_self _ _
      · rw [mapGet, if_neg hk] at h
        exact List.mem_cons_of_mem _ (ih k v h)

theorem mapSet_map_set (store : Store) (v : Bin) :
    ∀ (idx : RefIndex), (idx.map Prod.snd).Nodup → (∀ kr ∈ idx, kr.2 < store.length) →
      ∀ (key : String) (r : Nat), mapGet idx key = some r →
      mapSet (idx.map fun kr => (kr.1, readRef store kr.2)) key v =
        idx.map (fun kr => (kr.1, readRef (store.set r v) kr.2)) := by
  intro idx
  induction idx with
  | nil => intro _ _ key r h; exact Option.noConfusion h
  | cons e rest ih =>
      intro hnd hb key r hget
      obtain ⟨k1, r1⟩ := e
      have hnd2 : (rest.map Prod.snd).Nodup := (List.nodup_cons.mp hnd).2
      have hr1 : r1 ∉ rest.map Prod.snd := (List.nodup_cons.mp hnd).1
      by_cases hk : k1 = key
      · rw [mapGet, if_pos hk] at hget
        have hr : r1 = r := Option.some_inj.mp hget
        subst hr
        rw [List.map_cons, List.map_cons, mapSet, if_pos hk]
        have hhead : readRef (store.set r1 v) r1 = v :=
          readRef_set_self store r1 v (hb (k1, r1) (List.mem_cons_self _ _))
        rw [hhead, hk]
        have htail : rest.map (fun kr => (kr.1, readRef (store.set r1 v) kr.2)) =
            rest.map (fun kr => (kr.1, readRef store kr.2)) := by
          refine List.map_congr_left fun kr hkr => ?_
          have : kr.2 ≠ r1 := by
            intro hco
            exact hr1 (hco ▸ List.mem_map_of_mem Prod.snd hkr)
          rw [readRef_set_ne store r1 kr.2 v (fun h => this h.symm)]
        rw [htail]
      · rw [mapGet, if_neg hk] at hget
        have hrr : r ∈ rest.map Prod.snd :=
          List.mem_map_of_mem Prod.snd (mapGet_mem rest key r hget)
        have hne : r ≠ r1 := fun h => hr1 (h ▸ hrr)
        rw [List.map_cons, List.map_cons, mapSet, if_neg hk]
        rw [readRef_set_ne store r r1 v hne]
        rw [ih hnd2 (fun kr hkr => hb kr (List.mem_cons_of_mem _ hkr)) key r hget]

theorem sim_set_branch (store : Store) (idx : RefIndex) (m : BinIndex) (key : String)
    (r : Nat) (F : Bin → Bin) (h : IndexSim store idx m) (hg : mapGet idx key = some r) :
    IndexSim (store.set r (F (readRef store r))) idx (mapSet m key (F (readRef store r))) := by
  obtain ⟨hmap, hb, hnd⟩ := h
  refine ⟨?_, ?_, hnd⟩
  · rw [hmap]
    exact mapSet_map_set store (F (readRef store r)) idx hnd hb key r hg
  · intro kr hkr
    rw [List.length_set]
    exact hb kr hkr

theorem sim_append_branch (store : Store) (idx : RefIndex) (m : BinIndex) (key : String)
    (b : Bin) (h : IndexSim store idx m) (hg : mapGet idx key = none) :
    IndexSim (store ++ [b]) (idx ++ [(key, store.length)]) (mapSet m key b) := by
  obtain ⟨hmap, hb, hnd⟩ := h
  have hgm : mapGet m key = none := by
    rw [hmap, mapGet_map (readRef store) idx key, hg]
    rfl
  refine ⟨?_, ?_, ?_⟩
  · rw [mapSet_of_get_none m key b hgm, hmap, List.map_append, List.map_cons]
    have htail : idx.map (fun kr => (kr.1, readRef (store ++ [b]) kr.2)) =
        idx.map (fun kr => (kr.1, readRef store kr.2)) := by
      refine List.map_congr_left fun kr hkr => ?_
      rw [readRef_append_lt store [b] kr.2 (hb kr hkr)]
    rw [htail, readRef_append_len]
    rfl
  · intro kr hkr
    rw [List.length_append]
    rcases List.mem_append.mp hkr with hold | hnew
    · exact Nat.lt_succ_of_lt (hb kr hold)
    · rcases List.mem_singleton.mp hnew with rfl
      exact Nat.lt_succ_self _
  · rw [List.map_append]
    refine List.Nodup.append hnd (List.nodup_singleton _) ?_
    intro a ha hb2
    obtain ⟨kr, hkr, rfl⟩ := List.mem_map.mp ha
    have hlen : kr.2 = store.length := by
      simpa using hb2
    exact absurd hlen (Nat.ne_of_lt (hb kr hkr))

theorem foldl_sim {α β γ : Type} (R : β → γ → Prop) (f : β → α → β) (g : γ → α → γ)
    (hstep : ∀ b c a, R b c → R (f b a) (g c a)) :
    ∀ (l : List α) (b : β) (c : γ), R b c → R (l.foldl f b) (l.foldl g c) := by
  intro l
  induction l with
  | nil => intro b c h; exact h
  | cons a t ih => intro b c h; exact ih (f b a) (g c a) (hstep b c a h)

theorem hourFoldStepH_sim (now : Int) (d : Detection) (store : Store) (idx : RefIndex)
    (m : BinIndex) (h : IndexSim store idx m) :
    IndexSim (hourFoldStepH now (store, idx) d).1 (hourFoldStepH now (store, idx) d).2
      (hourFoldStep now m d) ∧
    ∀ r ∈ idx.map Prod.snd, r ∈ (hourFoldStepH now (store, idx) d).2.map Prod.snd := by
  cases hg : mapGet idx (makeBinKey .hour d.cameraId (binStart .hour d.timezone d.ts)) with
  | some r =>
      have hgm : mapGet m (makeBinKey .hour d.cameraId (binStart .hour d.timezone d.ts))
          = some (readRef store r) := by
        rw [h.1, mapGet_map, hg]
        rfl
      constructor
      · have hsim := sim_set_branch store idx m
          (makeBinKey .hour d.cameraId (binStart .hour d.timezone d.ts)) r
          (fun x => if hasAggregatedId x d.id then x
            else updateBinWithParkingDetection now x d) h hg
        simp only [hourFoldStepH, hourFoldStep]
        rw [hg, hgm]
        exact hsim
      · intro r2 hr2
        simp only [hourFoldStepH]
        rw [hg]
        exact hr2
  | none =>
      have hgm : mapGet m (makeBinKey .hour d.cameraId (binStart .hour d.timezone d.ts))
          = none := by
        rw [h.1, mapGet_map, hg]
        rfl
      constructor
      · have hsim := sim_append_branch store idx m
          (makeBinKey .hour d.cameraId (binStart .hour d.timezone d.ts))
          (if hasAggregatedId (newBin .hour d.src (binStart .hour d.timezone d.ts)
              (binEnd .hour d.timezone d.ts) d.timezone true now) d.id then
            newBin .hour d.src (binStart .hour d.timezone d.ts)
              (binEnd .hour d.timezone d.ts) d.timezone true now
          else
            updateBinWithParkingDetection now
              (newBin .hour d.src (binStart .hour d.timezone d.ts)
                (binEnd .hour d.timezone d.ts) d.timezone true now) d) h hg
        simp only [hourFoldStepH, hourFoldStep]
        rw [hg, hgm]
        exact hsim
      · intro r2 hr2
        simp only [hourFoldStepH]
        rw [hg, List.map_append]
        exact List.mem_append_left _ hr2

theorem rollupStepH_sim (now : Int) (size : BinSize) (lb : Bin) (store : Store)
    (idx : RefIndex) (m : BinIndex) (h : IndexSim store idx m) :
    IndexSim (rollupStepH now size (store, idx) lb).1 (rollupStepH now size (store, idx) lb).2
      (rollupStep now size m lb) ∧
    ∀ r ∈ idx.map Prod.snd, r ∈ (rollupStepH now size (store, idx) lb).2.map Prod.snd := by
  cases hg : mapGet idx (makeBinKey size lb.cameraId (binStart size lb.timezone lb.startTs)) with
  | some r =>
      have hgm : mapGet m (makeBinKey size lb.cameraId (binStart size lb.timezone lb.startTs))
          = some (readRef store r) := by
        rw [h.1, mapGet_map, hg]
        rfl
      constructor
      · have hsim := sim_set_branch store idx m
          (makeBinKey size lb.cameraId (binStart size lb.timezone lb.startTs)) r
          (fun x => updateParkingBinWithBin now x lb) h hg
        simp only [rollupStepH, rollupStep]
        rw [hg, hgm]
        exact hsim
      · intro r2 hr2
        simp only [rollupStepH]
        rw [hg]
        exact hr2
  | none =>
      have hgm : mapGet m (makeBinKey size lb.cameraId (binStart size lb.timezone lb.startTs))
          = none := by
        rw [h.1, mapGet_map, hg]
        rfl
      constructor
      · have hsim := sim_append_branch store idx m
          (makeBinKey size lb.cameraId (binStart size lb.timezone lb.startTs))
          (updateParkingBinWithBin now
            (newBin size lb.src (binStart size lb.timezone lb.startTs)
              (binEnd size lb.timezone lb.startTs) lb.timezone false now) lb) h hg
        simp only [rollupStepH, rollupStep]
        rw [hg, hgm]
        exact hsim
      · intro r2 hr2
        simp only [rollupStepH]
        rw [hg, List.map_append]
        exact List.mem_append_left _ hr2

theorem mapGet_none_of_not_mem_keys {β : Type} :
    ∀ (m : List (String × β)) (k : String), k ∉ m.map Prod.fst → mapGet m k = none := by
  intro m
  induction m with
  | nil => intro k _; rfl
  | cons e rest ih =>
      intro k hk
      obtain ⟨k1, w⟩ := e
      rw [mapGet, if_neg (fun heq => hk (by simp [heq]))]
      exact ih k (fun hmem => hk (List.mem_cons_of_mem _ hmem))

theorem foldl_mapSet_nodup {β γ : Type} (key : β → String) (val : β → γ) :
    ∀ (l : List β) (acc : List (String × γ)),
      (acc.map Prod.fst ++ l.map key).Nodup →
      l.foldl (fun m x => mapSet m (key x) (val x)) acc
        = acc ++ l.map (fun x => (key x, val x)) := by
  intro l
  induction l with
  | nil => intro acc _; simp
  | cons x t ih =>
      intro acc hnd
      have hx : key x ∉ acc.map Prod.fst := by
        have hd := List.disjoint_of_nodup_append hnd
        intro hmem
        exact hd hmem (List.mem_cons_self _ _)
      have hnd2 : ((acc ++ [(key x, val x)]).map Prod.fst ++ t.map key).Nodup := by
        rw [List.map_append, List.append_assoc]
        simpa using hnd
      rw [List.foldl_cons,
        mapSet_of_get_none acc (key x) (val x) (mapGet_none_of_not_mem_keys acc (key x) hx),
        ih (acc ++ [(key x, val x)]) hnd2]
      simp

theorem seedRefs_eq (size : BinSize) (store : Store) (refs : List Nat)
    (hk : ((refs.map fun r => makeBinKey size (readRef store r).cameraId
      (readRef store r).startTs)).Nodup) :
    seedRefs size store refs =
      refs.map (fun r =>
        (makeBinKey size (readRef store r).cameraId (readRef store r).startTs, r)) :=
  foldl_mapSet_nodup
    (fun r => makeBinKey size (readRef store r).cameraId (readRef store r).startTs)
    (fun r => r) refs [] (by simpa using hk)

theorem seedBins_eq (size : BinSize) (bins : List Bin)
    (hk : ((bins.map fun b => makeBinKey size b.cameraId b.startTs)).Nodup) :
    seedBins size bins = bins.map (fun b => (makeBinKey size b.cameraId b.startTs, b)) :=
  foldl_mapSet_nodup (fun (b : Bin) => makeBinKey size b.cameraId b.startTs)
    (fun b => b) bins [] (by simpa using hk)

theorem seed_sim (size : BinSize) (store : Store) (refs : List Nat)
    (hb : ∀ r ∈ refs, r < store.length)
    (hk : ((refs.map fun r => makeBinKey size (readRef store r).cameraId
      (readRef store r).startTs)).Nodup) :
    IndexSim store (seedRefs size store refs) (seedBins size (refs.map (readRef store))) ∧
    ∀ r ∈ refs, r ∈ (seedRefs size store refs).map Prod.snd := by
  have hkeys2 : (((refs.map (readRef store)).map
      fun b => makeBinKey size b.cameraId b.startTs)).Nodup := by
    rw [List.map_map]
    exact hk
  have hseed := seedRefs_eq size store refs hk
  have hpseed := seedBins_eq size (refs.map (readRef store)) hkeys2
  have hsnd : (seedRefs size store refs).map Prod.snd = refs := by
    rw [hseed, List.map_map]
    exact List.map_id refs
  refine ⟨⟨?_, ?_, ?_⟩, ?_⟩
  · rw [hpseed, hseed, List.map_map, List.map_map]
    rfl
  · rw [hseed]
    intro kr hkr
    obtain ⟨r, hr, rfl⟩ := List.mem_map.mp hkr
    exact hb r hr
  · rw [hsnd]
    exact List.Nodup.of_map _ hk
  · intro r hr
    rw [hsnd]
    exact hr

theorem aggregateHourBinsH_sim (now : Int) (detections : List Detection) (store : Store)
    (refs : List Nat) (hb : ∀ r ∈ refs, r < store.length)
    (hk : ((refs.map fun r => makeBinKey .hour (readRef store r).cameraId
      (readRef store r).startTs)).Nodup) :
    (∀ r ∈ refs, r ∈ (aggregateHourBinsH now detections store refs).2) ∧
    (aggregateHourBinsH now detections store refs).2.map
        (readRef (aggregateHourBinsH now detections store refs).1)
      = aggregateHourBins now detections (refs.map (readRef store)) := by
  obtain ⟨hsim0, hrefs0⟩ := seed_sim .hour store refs hb hk
  have hR := foldl_sim
    (fun (sm : Store × RefIndex) (m : BinIndex) =>
      IndexSim sm.1 sm.2 m ∧ ∀ r ∈ refs, r ∈ sm.2.map Prod.snd)
    (hourFoldStepH now) (hourFoldStep now)
    (fun sm m d hRm =>
      ⟨(hourFoldStepH_sim now d sm.1 sm.2 m hRm.1).1,
        fun r hr => (hourFoldStepH_sim now d sm.1 sm.2 m hRm.1).2 r (hRm.2 r hr)⟩)
    detections (store, seedRefs .hour store refs)
    (seedBins .hour (refs.map (readRef store))) ⟨hsim0, hrefs0⟩
  obtain ⟨⟨hmap, _, _⟩, hrefs⟩ := hR
  constructor
  · intro r hr
    simp only [aggregateHourBinsH]
    exact hrefs r hr
  · simp only [aggregateHourBinsH, aggregateHourBins]
    rw [hmap, List.map_map, List.map_map]
    rfl

theorem rollupBinsH_sim (now : Int) (lowerBins : List Bin) (size : BinSize) (store : Store)
    (refs : List Nat) (hb : ∀ r ∈ refs, r < store.length)
    (hk : ((refs.map fun r => makeBinKey size (readRef store r).cameraId
      (readRef store r).startTs)).Nodup) :
    (∀ r ∈ refs, r ∈ (rollupBinsH now lowerBins size store refs).2) ∧
    (rollupBinsH now lowerBins size store refs).2.map
        (readRef (rollupBinsH now lowerBins size store refs).1)
      = rollupBins now lowerBins size (refs.map (readRef store)) := by
  obtain ⟨hsim0, hrefs0⟩ := seed_sim size store refs hb hk
  have hR := foldl_sim
    (fun (sm : Store × RefIndex) (m : BinIndex) =>
      IndexSim sm.1 sm.2 m ∧ ∀ r ∈ refs, r ∈ sm.2.map Prod.snd)
    (rollupStepH now size) (rollupStep now size)
    (fun sm m lb hRm =>
      ⟨(rollupStepH_sim now size lb sm.1 sm.2 m hRm.1).1,
        fun r hr => (rollupStepH_sim now size lb sm.1 sm.2 m hRm.1).2 r (hRm.2 r hr)⟩)
    lowerBins (store, seedRefs size store refs)
    (seedBins size (refs.map (readRef store))) ⟨hsim0, hrefs0⟩
  obtain ⟨⟨hmap, _, _⟩, hrefs⟩ := hR
  constructor
  · intro r hr
    simp only [rollupBinsH]
    exact hrefs r hr
  · simp only [rollupBinsH, rollupBins]
    rw [hmap, List.map_map, List.map_map]
    rfl

/-- C8: the bin maps hold references, not copies. Over the heap model of object
identity (`Store` slots), every existing bin object handed to the hour fold or to
a rollup appears — as the very same reference — in the returned bin array, and
dereferencing the returned array through the final heap yields exactly the pure
`_aggregateHourBins`/`_rollupBins` result: the caller's objects themselves now
hold the updated aggregates. (The hypotheses say the supplied references are live
and no two supplied bins collide on one bin key, as is the case for bins read
back from the per-key bin stores.) -/
theorem aggregate_updates_existing_bin_objects_in_place
    (now : Int) (detections : List Detection) (store : Store) (refs : List Nat)
    (lowerBins : List Bin) (size : BinSize) (store2 : Store) (refs2 : List Nat)
    (h1 : ∀ r ∈ refs, r < store.length)
    (h2 : ((refs.map fun r => makeBinKey .hour (readRef store r).cameraId
      (readRef store r).startTs)).Nodup)
    (h3 : ∀ r ∈ refs2, r < store2.length)
    (h4 : ((refs2.map fun r => makeBinKey size (readRef store2 r).cameraId
      (readRef store2 r).startTs)).Nodup) :
    ((∀ r ∈ refs, r ∈ (aggregateHourBinsH now detections store refs).2) ∧
      (aggregateHourBinsH now detections store refs).2.map
          (readRef (aggregateHourBinsH now detections store refs).1)
        = aggregateHourBins now detections (refs.map (readRef store))) ∧
    ((∀ r ∈ refs2, r ∈ (rollupBinsH now lowerBins size store2 refs2).2) ∧
      (rollupBinsH now lowerBins size store2 refs2).2.map
          (readRef (rollupBinsH now lowerBins size store2 refs2).1)
        = rollupBins now lowerBins size (refs2.map (readRef store2))) :=
  ⟨aggregateHourBinsH_sim now detections store refs h1 h2,
    rollupBinsH_sim now lowerBins size store2 refs2 h3 h4⟩

/-- C8 witness: the in-place-update statement at a concrete heap holding one
existing hour bin and one existing day bin. -/
theorem aggregate_updates_existing_bin_objects_in_place_w :
    ((∀ r ∈ [0], r ∈ (aggregateHourBinsH 0 [exDetection] [exEmptyHourBin] [0]).2) ∧
      (aggregateHourBinsH 0 [exDetection] [exEmptyHourBin] [0]).2.map
          (readRef (aggregateHourBinsH 0 [exDetection] [exEmptyHourBin] [0]).1)
        = aggregateHourBins 0 [exDetection] ([0].map (readRef [exEmptyHourBin]))) ∧
    ((∀ r ∈ [0], r ∈ (rollupBinsH 0 [exHourBinOut] .day [exDayBin] [0]).2) ∧
      (rollupBinsH 0 [exHourBinOut] .day [exDayBin] [0]).2.map
          (readRef (rollupBinsH 0 [exHourBinOut] .day [exDayBin] [0]).1)
        = rollupBins 0 [exHourBinOut] .day ([0].map (readRef [exDayBin]))) :=
  aggregate_updates_existing_bin_objects_in_place 0 [exDetection] [exEmptyHourBin] [0]
    [exHourBinOut] .day [exDayBin] [0]
    (by decide) (by decide) (by decide) (by decide)

end ParkingMonitor
